import Mathlib

/-!
# Verification of the finance-visualizer pipeline (`src/visualizer/core.py`)

A shallow embedding of the configuration-driven aggregation-and-rendering
pipeline of `visualizer/core.py`.  Cell values of a parsed CSV column are
either numeric (modelled as `ℚ`, covering the ints/floats pandas infers) or
strings (the `object` dtype pandas falls back to).  Pandas/`matplotlib`
behaviour relevant to the code is embedded explicitly:

* `Series.sum` adds numbers, concatenates strings, and raises `TypeError`
  on a mixed reduction (`sumSeries`);
* `groupby(col, as_index=False)[m].sum()` produces one row per distinct
  group key, sorted ascending (`aggregate`);
* Python `int(y)` (used by the data-label annotations) truncates a number
  toward zero and raises on a non-numeric string (`Value.toIntPy`);
* `plt.close(fig)` is tracked by the `figClosed` field of `RenderOutcome`,
  `fig.savefig` by an environment oracle `saveOk : String → Bool`;
* an exception propagating out of a call is the `err`/`escErr` field;
  Python `raise` aborts the rest of the surrounding loop body exactly as
  the step functions below do.
-/

set_option maxRecDepth 8000

set_option allowUnsafeReducibility true in
attribute [semireducible] Rat.add Rat.sub Rat.mul Rat.inv Rat.div Rat.neg Rat.ofScientific

namespace FinViz

/-- A cell value of a parsed table: numeric (pandas int/float dtype, embedded
as `ℚ`) or string (pandas object dtype). -/
inductive Value where
  | num (q : ℚ)
  | str (s : String)
deriving DecidableEq, Repr

/-- Exceptions that the embedded pipeline can raise. -/
inductive PErr where
  | typeError      -- pandas: reducing a mixed numeric/string column
  | intConvError   -- Python int(): argument not convertible to an integer
deriving DecidableEq, Repr

/-- Python `int()` on a rational: truncation toward zero. -/
def truncQ (q : ℚ) : Int := if 0 ≤ q then ⌊q⌋ else ⌈q⌉

/-- Decimal digits to a number; `none` as soon as a non-digit appears. -/
def digitsVal (acc : Nat) : List Char → Option Nat
  | [] => some acc
  | c :: cs => if c.isDigit then digitsVal (acc * 10 + (c.toNat - 48)) cs else none

/-- Python `int()` on a string: an optional minus sign followed by decimal
digits parses; everything else raises `ValueError` (`none`). -/
def parseIntPy (s : String) : Option Int :=
  match s.data with
  | [] => none
  | '-' :: [] => none
  | '-' :: c :: cs => (digitsVal 0 (c :: cs)).map (fun n => -(n : Int))
  | cs => (digitsVal 0 cs).map (fun n => (n : Int))

/-- Python `int(y)` as used in the data labels of `_generate_chart`:
truncates a number toward zero, parses a decimal string, and is `none`
(raises `ValueError`) otherwise. -/
def Value.toIntPy : Value → Option Int
  | .num q => some (truncQ q)
  | .str s => parseIntPy s

instance {ε α : Type} [DecidableEq ε] [DecidableEq α] : DecidableEq (Except ε α) :=
  fun x y =>
    match x, y with
    | .ok a, .ok b =>
        match decEq a b with
        | .isTrue h => .isTrue (by rw [h])
        | .isFalse h => .isFalse (fun hh => h (Except.ok.inj hh))
    | .error a, .error b =>
        match decEq a b with
        | .isTrue h => .isTrue (by rw [h])
        | .isFalse h => .isFalse (fun hh => h (Except.error.inj hh))
    | .ok _, .error _ => .isFalse (fun h => Except.noConfusion h)
    | .error _, .ok _ => .isFalse (fun h => Except.noConfusion h)

/-- Is this value numeric? -/
def Value.isNum : Value → Bool
  | .num _ => true
  | .str _ => false

/-- Numeric content of a value (`0` for strings; only used on numeric ones). -/
def Value.q : Value → ℚ
  | .num q => q
  | .str _ => 0

/-- One addition step of a pandas reduction: numbers add, strings
concatenate, and a mixed pair raises `TypeError`. -/
def addV : Value → Value → Except PErr Value
  | .num a, .num b => .ok (.num (a + b))
  | .str a, .str b => .ok (.str (a ++ b))
  | .num _, .str _ => .error .typeError
  | .str _, .num _ => .error .typeError

/-- Pandas `Series.sum()`: `0` for the empty series, otherwise a left fold
of `addV` starting from the first element. -/
def sumSeries : List Value → Except PErr Value
  | [] => .ok (.num 0)
  | v :: vs => vs.foldlM addV v

/-- The ascending order pandas uses on homogeneous group keys: numeric
order on numbers, lexicographic order on strings (the cross cases are
arbitrary; they are never exercised by a homogeneous key column). -/
def vle : Value → Value → Prop
  | .num a, .num b => a ≤ b
  | .str a, .str b => a ≤ b
  | .num _, .str _ => True
  | .str _, .num _ => False

instance : DecidableRel vle := fun a b =>
  match a, b with
  | .num a, .num b => inferInstanceAs (Decidable (a ≤ b))
  | .str a, .str b => inferInstanceAs (Decidable (a ≤ b))
  | .num _, .str _ => .isTrue trivial
  | .str _, .num _ => .isFalse id

instance : IsTotal Value vle where
  total a b := by
    cases a <;> cases b <;> simp only [vle] <;> first
      | exact le_total _ _
      | exact Or.inl trivial
      | exact Or.inr trivial

instance : IsTrans Value vle where
  trans a b c hab hbc := by
    cases a <;> cases b <;> cases c <;> simp only [vle] at hab hbc ⊢ <;>
      exact le_trans hab hbc

/-- Distinct group keys in order of first appearance: the worker carries
the keys already seen. -/
def dedupKeysAux (seen : List Value) : List Value → List Value
  | [] => []
  | v :: vs => if v ∈ seen then dedupKeysAux seen vs
               else v :: dedupKeysAux (v :: seen) vs

/-- Distinct group keys in order of first appearance (the set of keys a
pandas group-by forms before sorting them). -/
def dedupKeys (l : List Value) : List Value := dedupKeysAux [] l

/-- A row of a parsed table: an association of column names to cell values. -/
def Row := List (String × Value)
deriving DecidableEq

/-- Reading a cell `row[c]` (only applied to columns whose presence was
checked against the header). -/
def getVal (r : Row) (c : String) : Value :=
  match r.find? (fun p => p.1 == c) with
  | some p => p.2
  | none => .num 0

/-- An in-memory table (`pandas.DataFrame`): a header naming the columns,
and the parsed rows. -/
structure Table where
  header : List String
  rows : List Row
deriving DecidableEq

/-- Every cell of the table is numeric (pandas inferred a numeric dtype for
every column). -/
def numericTableB (t : Table) : Bool :=
  t.rows.all (fun r => r.all (fun p => p.2.isNum))

/-- A JSON value for the `columns` / `groupby` config keys: a single string
or a list of strings (the only shapes the code distinguishes). -/
inductive ColSpec where
  | one (c : String)
  | many (cs : List String)
deriving DecidableEq, Repr

/-- One configuration entry (a raw JSON object); `none` means the key is
absent from the dict. -/
structure Config where
  directory : Option String := none
  columns : Option ColSpec := none
  groupby : Option ColSpec := none
  chart_type : Option String := none
  chart_label : Option String := none
deriving DecidableEq, Repr

/-- Python truthiness of a `config.get('columns')` / `config.get('groupby')`
result: absent, `""` and `[]` are falsy. -/
def truthyCols : Option ColSpec → Bool
  | none => false
  | some (.one c) => !(c == "")
  | some (.many cs) => !cs.isEmpty

/-- Python truthiness of `config.get('chart_type')`. -/
def truthyStr : Option String → Bool
  | none => false
  | some s => !(s == "")

/-- The guard `if not target_cols or not groupby_input or not chart_type`
of `_process_single_file` (negated). -/
def configKeysOk (cfg : Config) : Bool :=
  truthyCols cfg.columns && truthyCols cfg.groupby && truthyStr cfg.chart_type

/-- Step 1 of `_process_single_file` ("Prepare Data (Handle Columns)"):
resolve the measure column(s).  Returns `none` when the file is skipped
with a warning (single column absent / none of the listed columns present /
key missing), otherwise the synthetic `calculated_value` column (an
`Except`, since the row-wise `df[available_cols].sum(axis=1)` can raise)
together with the `y_label`. -/
def resolveMeasure (t : Table) (cfg : Config) :
    Option (Except PErr (List Value) × String) :=
  match cfg.columns with
  | some (.many cs) =>
      let available := cs.filter (fun c => decide (c ∈ t.header))
      if available.isEmpty then none
      else
        some (t.rows.mapM (fun r => sumSeries (available.map (fun c => getVal r c))),
              cfg.chart_label.getD (String.intercalate " + " available))
  | some (.one c) =>
      if c ∈ t.header then
        some (.ok (t.rows.map (fun r => getVal r c)), cfg.chart_label.getD c)
      else none
  | none => none

/-- `df.groupby(group_col, as_index=False)[plot_col].sum()` on the zipped
(group value, measure value) pairs: one row per distinct group key, keys
sorted ascending, the measure summed per key (an `Except`, since a mixed
reduction raises `TypeError`). -/
def aggregate (t : Table) (mvals : List Value) (g : String) :
    Except PErr (List (Value × Value)) :=
  let pairs := (t.rows.map (fun r => getVal r g)).zip mvals
  let keys := List.insertionSort vle (dedupKeys (pairs.map Prod.fst))
  keys.mapM (fun k =>
    Except.map (fun s => (k, s))
      (sumSeries ((pairs.filter (fun p => decide (p.1 = k))).map Prod.snd)))

/-- The deterministic artifact path
`{output_dir}/{base_filename}_{x_col}_{chart_type}.png` built at the end of
`_generate_chart`. -/
def chartPath (outDir base xCol kind : String) : String :=
  outDir ++ "/" ++ base ++ "_" ++ xCol ++ "_" ++ kind ++ ".png"

/-- The data labels `f'\x7bint(y)\x7d'` drawn above the points/bars, in
order, stopping at the first `y` on which Python `int()` raises. -/
def labelTexts : List Value → List String
  | [] => []
  | y :: ys =>
      match Value.toIntPy y with
      | some n => toString n :: labelTexts ys
      | none => []

/-- Do all data-label conversions succeed? -/
def allConvertible (ys : List Value) : Bool :=
  ys.all (fun y => y.toIntPy.isSome)

/-- The observable outcome of one `_generate_chart` call. -/
structure RenderOutcome where
  /-- the artifact path, when `fig.savefig` ran and succeeded -/
  written : Option String
  /-- was `plt.close(fig)` reached on this control path? -/
  figClosed : Bool
  /-- an exception propagating out of the call -/
  err : Option PErr
  /-- the data-label texts drawn -/
  texts : List String
  /-- the label passed to `set_ylabel` and the legend -/
  yLabel : String
deriving DecidableEq, Repr

/-- `_generate_chart`: dispatches on `chart_type`.  For `"line"`/`"bar"` it
plots, draws the `int(y)` data labels (raising past the call on a
non-convertible value, before any save and before the `finally` that closes
the figure), then decorates and saves inside `try/except/finally` — a save
failure is logged and the figure closed.  Any other kind logs an error,
closes the figure and returns without writing. -/
def generate_chart (series : List (Value × Value)) (xCol kind outDir base lbl : String)
    (saveOk : String → Bool) : RenderOutcome :=
  let ys := series.map Prod.snd
  if kind = "line" ∨ kind = "bar" then
    if allConvertible ys then
      let path := chartPath outDir base xCol kind
      if saveOk path then
        { written := some path, figClosed := true, err := none,
          texts := labelTexts ys, yLabel := lbl }
      else
        { written := none, figClosed := true, err := none,
          texts := labelTexts ys, yLabel := lbl }
    else
      { written := none, figClosed := false, err := some .intConvError,
        texts := labelTexts ys, yLabel := lbl }
  else
    { written := none, figClosed := true, err := none, texts := [], yLabel := lbl }

/-- One iteration of the `for group_col in groupby_input` loop of
`_process_single_file`. -/
inductive GroupStep where
  | skippedMissing (g : String)
  | aggFailed (g : String) (e : PErr)
  | rendered (g : String) (r : RenderOutcome)
deriving DecidableEq, Repr

/-- The group column a step was about. -/
def stepCol : GroupStep → String
  | .skippedMissing g => g
  | .aggFailed g _ => g
  | .rendered g _ => g

/-- The artifact a step wrote, if any. -/
def stepArtifact : GroupStep → Option String
  | .rendered _ r => r.written
  | _ => none

/-- The `for group_col in groupby_input` loop: a missing group column is
warned about and skipped (`continue`); an exception raised by the
aggregation or by `_generate_chart` aborts the remaining iterations and
propagates (second component). -/
def processGroups (t : Table) (mvals : List Value) (kind outDir base lbl : String)
    (saveOk : String → Bool) : List String → List GroupStep × Option PErr
  | [] => ([], none)
  | g :: gs =>
    if g ∈ t.header then
      match aggregate t mvals g with
      | .error e => ([.aggFailed g e], some e)
      | .ok series =>
        let r := generate_chart series g kind outDir base lbl saveOk
        match r.err with
        | some e => ([.rendered g r], some e)
        | none =>
          let rest := processGroups t mvals kind outDir base lbl saveOk gs
          (.rendered g r :: rest.1, rest.2)
    else
      let rest := processGroups t mvals kind outDir base lbl saveOk gs
      (.skippedMissing g :: rest.1, rest.2)

/-- The observable outcome of one `_process_single_file` call. -/
structure FileOutcome where
  /-- the group-column loop iterations that ran, in order -/
  steps : List GroupStep
  /-- an exception escaping the call (to the per-file handler) -/
  escErr : Option PErr
deriving DecidableEq, Repr

/-- The artifact paths a file's processing wrote. -/
def FileOutcome.artifacts (o : FileOutcome) : List String :=
  o.steps.filterMap stepArtifact

/-- A source file matched by the glob pattern: its directory
(`file_path.parent`), its stem (`file_path.stem`), and the parse result of
`pd.read_csv` (`none` when parsing raised — that exception is caught inside
`_process_single_file` itself). -/
structure SrcFile where
  dir : String
  stem : String
  parsed : Option Table
deriving DecidableEq

/-- `groupby_input` normalized to a list (`if isinstance(groupby_input,
str): groupby_input = [groupby_input]`). -/
def groupListOf (cfg : Config) : List String :=
  match cfg.groupby with
  | some (.one g) => [g]
  | some (.many gs) => gs
  | none => []

/-- `_process_single_file`: parse (parse failure is caught and the file
skipped), check the required config keys, resolve the measure column(s)
(`none` skips the file; a raising row-wise sum escapes the call), then run
the group-column loop.  `escErr` is the exception the caller's per-file
`try/except` will catch. -/
def process_single_file (f : SrcFile) (cfg : Config) (saveOk : String → Bool) :
    FileOutcome :=
  match f.parsed with
  | none => { steps := [], escErr := none }
  | some t =>
    if configKeysOk cfg then
      match resolveMeasure t cfg with
      | none => { steps := [], escErr := none }
      | some (.error e, _) => { steps := [], escErr := some e }
      | some (.ok mvals, lbl) =>
        let res := processGroups t mvals (cfg.chart_type.getD "") f.dir f.stem lbl
          saveOk (groupListOf cfg)
        { steps := res.1, escErr := res.2 }
    else { steps := [], escErr := none }

/-- The `for file_path in files` loop of `_process_config_entry`: each file
is processed under its own `try/except Exception`, so every file is
processed whatever the previous ones raised. -/
def process_config_entry (files : List SrcFile) (cfg : Config)
    (saveOk : String → Bool) : List FileOutcome :=
  files.map (fun f => process_single_file f cfg saveOk)

/-- The errors `load_config` can raise. -/
inductive LoadErr where
  | notFound      -- FileNotFoundError
  | decodeError   -- ValueError: failed to decode JSON
  | formatError   -- ValueError: root neither list nor dict
  | emptyError    -- ValueError: no config data found
deriving DecidableEq, Repr

/-- The shape of the parsed JSON root the code inspects. -/
inductive JsonRoot where
  | arr (xs : List Config)
  | obj (c : Config)
  | other
deriving DecidableEq, Repr

/-- What the filesystem yields for the config path. -/
inductive ConfigSource where
  | missing
  | badJson
  | parsed (j : JsonRoot)
deriving DecidableEq, Repr

/-- `Visualizer.load_config`: given the current `self.config_data` and the
config source, returns the raised error or `()` together with the new
`self.config_data`.  On every raising path the method returns before the
`self.config_data = config` assignment, so the field keeps its prior
value. -/
def load_config (st : List Config) (src : ConfigSource) :
    Except LoadErr Unit × List Config :=
  match src with
  | .missing => (.error .notFound, st)
  | .badJson => (.error .decodeError, st)
  | .parsed .other => (.error .formatError, st)
  | .parsed (.arr []) => (.error .emptyError, st)
  | .parsed (.arr (c :: cs)) => (.ok (), c :: cs)
  | .parsed (.obj c) => (.ok (), [c])

end FinViz

namespace FinViz

/-- The table of the end-to-end test (`test_financials.csv`):
Year/Category/Amount. -/
def tYear : Table :=
  { header := ["Year", "Category", "Amount"],
    rows := [
      [("Year", .num 2023), ("Category", .str "A"), ("Amount", .num 100)],
      [("Year", .num 2023), ("Category", .str "B"), ("Amount", .num 200)],
      [("Year", .num 2024), ("Category", .str "A"), ("Amount", .num 150)],
      [("Year", .num 2024), ("Category", .str "B"), ("Amount", .num 250)]] }

/-- The job of the end-to-end test: sum `Amount` grouped by `Year` as a bar
chart. -/
def cfgYear : Config :=
  { directory := some "d", columns := some (.one "Amount"),
    groupby := some (.one "Year"), chart_type := some "bar" }

/-- The source file holding `tYear`. -/
def fYear : SrcFile := { dir := "d", stem := "fin", parsed := some tYear }


end FinViz

namespace FinViz

/-- A save oracle under which every `fig.savefig` succeeds. -/
def saveAll : String → Bool := fun _ => true

/-- A table whose measure column `M` is a string (object-dtype) column and
which has two group columns; used to exercise a raising data-label
conversion. -/
def tC1 : Table :=
  { header := ["G1", "G2", "M"],
    rows := [
      [("G1", .num 1), ("G2", .num 10), ("M", .str "a")],
      [("G1", .num 1), ("G2", .num 20), ("M", .str "b")]] }

/-- A job over `tC1` grouping by both `G1` and `G2`. -/
def cfgC1 : Config :=
  { directory := some "d", columns := some (.one "M"),
    groupby := some (.many ["G1", "G2"]), chart_type := some "line" }

/-- The source file holding `tC1`. -/
def fC1 : SrcFile := { dir := "d", stem := "f", parsed := some tC1 }

/-- The table of the multi-column test (`multi_col.csv`): Year/Salary/Bonus. -/
def tSB : Table :=
  { header := ["Year", "Salary", "Bonus"],
    rows := [
      [("Year", .num 2023), ("Salary", .num 50000), ("Bonus", .num 5000)],
      [("Year", .num 2024), ("Salary", .num 52000), ("Bonus", .num 6000)]] }

/-- The job of the multi-column test: sum `Salary` + `Bonus` by `Year`. -/
def cfgSB : Config :=
  { directory := some "d", columns := some (.many ["Salary", "Bonus"]),
    groupby := some (.one "Year"), chart_type := some "line" }

/-- The source file holding `tSB`. -/
def fSB : SrcFile := { dir := "d", stem := "sb", parsed := some tSB }

/-- A job over `tSB` with an unsupported chart kind. -/
def cfgPie : Config :=
  { directory := some "d", columns := some (.one "Salary"),
    groupby := some (.one "Year"), chart_type := some "pie" }

/-- A table with no `Amount` column. -/
def tNoAmt : Table :=
  { header := ["Year"], rows := [[("Year", .num 2023)]] }

/-- The source file holding `tNoAmt`. -/
def fNoAmt : SrcFile := { dir := "d", stem := "empty", parsed := some tNoAmt }

/-- The `tYear` job with `chart_label` present but bound to the empty
string. -/
def cfgC10 : Config :=
  { directory := some "d", columns := some (.one "Amount"),
    groupby := some (.one "Year"), chart_type := some "bar",
    chart_label := some "" }

end FinViz

namespace FinViz

/-! ## Helper lemmas -/

theorem foldlM_addV_num (l : List ℚ) : ∀ a : ℚ,
    List.foldlM addV (Value.num a) (l.map Value.num) = .ok (.num (a + l.sum)) := by
  induction l with
  | nil => intro a; simp [List.foldlM]; rfl
  | cons b bs ih =>
      intro a
      simp only [List.map_cons, List.foldlM_cons, addV, List.sum_cons]
      show List.foldlM addV (Value.num (a + b)) (List.map Value.num bs) = _
      rw [ih (a + b), add_assoc]

theorem sumSeries_num (l : List ℚ) : sumSeries (l.map Value.num) = .ok (.num l.sum) := by
  cases l with
  | nil => simp [sumSeries]
  | cons a as => simpa [sumSeries] using foldlM_addV_num as a

theorem allNum_eq_map (l : List Value) (h : ∀ v ∈ l, v.isNum = true) :
    l = (l.map Value.q).map Value.num := by
  induction l with
  | nil => rfl
  | cons v vs ih =>
      have hv := h v (List.mem_cons_self v vs)
      cases v with
      | num q =>
          simp only [List.map_cons, Value.q]
          congr 1
          exact ih (fun w hw => h w (List.mem_cons_of_mem _ hw))
      | str s => simp [Value.isNum] at hv

theorem sumSeries_allNum (l : List Value) (h : ∀ v ∈ l, v.isNum = true) :
    sumSeries l = .ok (.num (l.map Value.q).sum) := by
  conv_lhs => rw [allNum_eq_map l h]
  exact sumSeries_num _

theorem mapM_ok_of {α β ε : Type} (l : List α) (f : α → Except ε β) (g : α → β)
    (H : ∀ a ∈ l, f a = .ok (g a)) : l.mapM f = .ok (l.map g) := by
  induction l with
  | nil => rfl
  | cons a as ih =>
      rw [List.mapM_cons, H a (List.mem_cons_self a as),
        ih (fun b hb => H b (List.mem_cons_of_mem _ hb))]
      rfl

theorem mapM_isOk {α β ε : Type} (l : List α) (f : α → Except ε β)
    (H : ∀ a ∈ l, ∃ b, f a = .ok b) : ∃ out, l.mapM f = .ok out := by
  induction l with
  | nil => exact ⟨[], rfl⟩
  | cons a as ih =>
      obtain ⟨b, hb⟩ := H a (List.mem_cons_self a as)
      obtain ⟨out, hout⟩ := ih (fun c hc => H c (List.mem_cons_of_mem _ hc))
      exact ⟨b :: out, by rw [List.mapM_cons, hb, hout]; rfl⟩

theorem mem_dedupKeysAux : ∀ (l seen : List Value) (a : Value),
    a ∈ dedupKeysAux seen l ↔ a ∈ l ∧ a ∉ seen := by
  intro l
  induction l with
  | nil => intro seen a; simp [dedupKeysAux]
  | cons v vs ih =>
      intro seen a
      rw [dedupKeysAux]
      by_cases hv : v ∈ seen
      · rw [if_pos hv, ih seen a]
        constructor
        · exact fun h => ⟨List.mem_cons_of_mem _ h.1, h.2⟩
        · rintro ⟨hm, hns⟩
          rcases List.mem_cons.mp hm with rfl | hm2
          · exact absurd hv hns
          · exact ⟨hm2, hns⟩
      · rw [if_neg hv]
        by_cases hav : a = v
        · subst hav
          simp [hv]
        · simp only [List.mem_cons, hav, false_or, ih (v :: seen) a]

theorem mem_dedupKeys : ∀ (l : List Value) (a : Value), a ∈ dedupKeys l ↔ a ∈ l := by
  intro l a
  rw [dedupKeys, mem_dedupKeysAux]
  simp

theorem nodup_dedupKeysAux : ∀ (l seen : List Value), (dedupKeysAux seen l).Nodup := by
  intro l
  induction l with
  | nil => intro seen; simp [dedupKeysAux]
  | cons v vs ih =>
      intro seen
      rw [dedupKeysAux]
      by_cases hv : v ∈ seen
      · rw [if_pos hv]; exact ih seen
      · rw [if_neg hv]
        refine List.Nodup.cons ?_ (ih (v :: seen))
        intro hmem
        exact ((mem_dedupKeysAux vs (v :: seen) v).mp hmem).2 (List.mem_cons_self _ _)

theorem nodup_dedupKeys : ∀ l : List Value, (dedupKeys l).Nodup :=
  fun l => nodup_dedupKeysAux l []

theorem exists_map_num (l : List Value) (h : ∀ v ∈ l, ∃ q : ℚ, v = .num q) :
    ∃ qs : List ℚ, l = qs.map Value.num := by
  induction l with
  | nil => exact ⟨[], rfl⟩
  | cons v vs ih =>
      obtain ⟨q, hq⟩ := h v (List.mem_cons_self v vs)
      obtain ⟨qs, hqs⟩ := ih (fun w hw => h w (List.mem_cons_of_mem _ hw))
      exact ⟨q :: qs, by rw [hq, hqs]; rfl⟩

end FinViz

namespace FinViz

theorem filter_zip_num_snd (ks : List ℚ) (q : ℚ) : ∀ ms : List ℚ,
    ((((ks.map Value.num).zip (ms.map Value.num)).filter
        (fun p => decide (p.1 = Value.num q))).map Prod.snd) =
    ((((ks.zip ms).filter (fun pr => decide (pr.1 = q))).map Prod.snd).map Value.num) := by
  induction ks with
  | nil => intro ms; simp
  | cons k kt ih =>
      intro ms
      cases ms with
      | nil => simp
      | cons m mt =>
          simp only [List.map_cons, List.zip_cons_cons, List.filter_cons]
          by_cases hkq : k = q
          · subst hkq
            simp only [Value.num.injEq]
            simp [ih mt]
          · simp only [Value.num.injEq]
            simp [hkq, ih mt]

theorem aggregate_num_spec (t : Table) (mvals : List Value) (g : String)
    (ks ms : List ℚ)
    (hg : t.rows.map (fun r => getVal r g) = ks.map Value.num)
    (hm : mvals = ms.map Value.num)
    (hl : ms.length = ks.length) :
    ∃ qs : List ℚ, qs.Nodup ∧ List.Sorted (· ≤ ·) qs ∧ (∀ q : ℚ, q ∈ qs ↔ q ∈ ks) ∧
      aggregate t mvals g = .ok (qs.map (fun q => (Value.num q,
        Value.num ((((ks.zip ms).filter
          (fun pr => decide (pr.1 = q))).map Prod.snd).sum)))) := by
  subst hm
  have hfst : ((ks.map Value.num).zip (ms.map Value.num)).map Prod.fst = ks.map Value.num :=
    List.map_fst_zip _ _ (by simp [hl])
  obtain ⟨qs, hqs⟩ : ∃ qs : List ℚ,
      List.insertionSort vle (dedupKeys (ks.map Value.num)) = qs.map Value.num := by
    apply exists_map_num
    intro v hv
    rw [List.mem_insertionSort, mem_dedupKeys] at hv
    obtain ⟨q, _, hq⟩ := List.mem_map.mp hv
    exact ⟨q, hq.symm⟩
  have hnodupkeys : (qs.map Value.num).Nodup := by
    rw [← hqs]
    exact ((List.perm_insertionSort vle _).nodup_iff).mpr (nodup_dedupKeys _)
  have hqsnodup : qs.Nodup := hnodupkeys.of_map
  have hsorted : List.Sorted (fun a b : ℚ => a ≤ b) qs := by
    have hs := List.sorted_insertionSort vle (dedupKeys (ks.map Value.num))
    rw [hqs] at hs
    rw [List.Sorted, List.pairwise_map] at hs
    exact hs
  have hmem : ∀ q : ℚ, q ∈ qs ↔ q ∈ ks := by
    intro q
    constructor
    · intro hq
      have hv : Value.num q ∈ qs.map Value.num := List.mem_map_of_mem _ hq
      rw [← hqs, List.mem_insertionSort, mem_dedupKeys] at hv
      obtain ⟨q2, hq2, he⟩ := List.mem_map.mp hv
      rwa [Value.num.inj he] at hq2
    · intro hq
      have hv : Value.num q ∈ ks.map Value.num := List.mem_map_of_mem _ hq
      rw [← mem_dedupKeys, ← List.mem_insertionSort (r := vle), hqs] at hv
      obtain ⟨q2, hq2, he⟩ := List.mem_map.mp hv
      rwa [Value.num.inj he] at hq2
  refine ⟨qs, hqsnodup, hsorted, hmem, ?_⟩
  simp only [aggregate]
  rw [hg, hfst, hqs]
  have hG : qs.map (fun q => (Value.num q,
      Value.num ((((ks.zip ms).filter
        (fun pr => decide (pr.1 = q))).map Prod.snd).sum))) =
      (qs.map Value.num).map (fun k => (k,
        Value.num ((((ks.zip ms).filter
          (fun pr => decide (pr.1 = k.q))).map Prod.snd).sum))) := by
    rw [List.map_map]
    rfl
  rw [hG]
  apply mapM_ok_of
  intro k hk
  obtain ⟨q, hqin, hkq⟩ := List.mem_map.mp hk
  subst hkq
  rw [filter_zip_num_snd ks q ms, sumSeries_num]
  rfl

end FinViz

namespace FinViz

theorem getVal_isNum (t : Table) (r : Row) (c : String)
    (hnum : numericTableB t = true) (hr : r ∈ t.rows) : (getVal r c).isNum = true := by
  have hrall : r.all (fun p => p.2.isNum) = true := by
    rw [numericTableB, List.all_eq_true] at hnum
    exact hnum r hr
  rw [List.all_eq_true] at hrall
  unfold getVal
  cases hf : List.find? (fun p => p.1 == c) r with
  | none => rfl
  | some p => exact hrall p (List.mem_of_find?_eq_some hf)

theorem sumSeries_getVals (t : Table) (r : Row) (cols : List String)
    (hnum : numericTableB t = true) (hr : r ∈ t.rows) :
    sumSeries (cols.map (fun c => getVal r c)) =
      .ok (.num ((cols.map (fun c => (getVal r c).q)).sum)) := by
  rw [sumSeries_allNum _ (fun v hv => ?_), List.map_map]
  · rfl
  · obtain ⟨c, _, hc⟩ := List.mem_map.mp hv
    rw [← hc]
    exact getVal_isNum t r c hnum hr

theorem resolveMeasure_many (t : Table) (cs : List String) (cfg : Config)
    (hc : cfg.columns = some (.many cs))
    (hnum : numericTableB t = true)
    (hav : (cs.filter (fun c => decide (c ∈ t.header))).isEmpty = false) :
    resolveMeasure t cfg = some (.ok (t.rows.map (fun r =>
        Value.num (((cs.filter (fun c => decide (c ∈ t.header))).map
          (fun c => (getVal r c).q)).sum))),
      cfg.chart_label.getD (String.intercalate " + "
        (cs.filter (fun c => decide (c ∈ t.header))))) := by
  simp only [resolveMeasure, hc, hav, Bool.false_eq_true, if_false]
  rw [mapM_ok_of _ _ _ (fun r hr => sumSeries_getVals t r _ hnum hr)]

theorem resolveMeasure_one (t : Table) (c : String) (cfg : Config)
    (hc : cfg.columns = some (.one c)) (hmem : c ∈ t.header) :
    resolveMeasure t cfg =
      some (.ok (t.rows.map (fun r => getVal r c)), cfg.chart_label.getD c) := by
  simp only [resolveMeasure, hc, hmem, if_true]

theorem resolveMeasure_allNum (t : Table) (cfg : Config) (mvals : List Value) (lbl : String)
    (hnum : numericTableB t = true)
    (h : resolveMeasure t cfg = some (.ok mvals, lbl)) :
    ∀ v ∈ mvals, v.isNum = true := by
  cases hcol : cfg.columns with
  | none => rw [resolveMeasure, hcol] at h; exact absurd h (by simp)
  | some spec =>
    cases spec with
    | one c =>
        by_cases hmem : c ∈ t.header
        · rw [resolveMeasure_one t c cfg hcol hmem] at h
          have hmv : t.rows.map (fun r => getVal r c) = mvals := by
            have := (Option.some.inj h)
            exact congrArg Prod.fst this |> Except.ok.inj
          intro v hv
          rw [← hmv] at hv
          obtain ⟨r, hr, hrv⟩ := List.mem_map.mp hv
          rw [← hrv]
          exact getVal_isNum t r c hnum hr
        · rw [resolveMeasure, hcol] at h
          simp only [hmem, if_false] at h
          exact absurd h (by simp)
    | many cs =>
        cases hem : (cs.filter (fun c => decide (c ∈ t.header))).isEmpty with
        | true =>
            rw [resolveMeasure, hcol] at h
            simp only [hem, if_true] at h
            exact absurd h (by simp)
        | false =>
            rw [resolveMeasure_many t cs cfg hcol hnum hem] at h
            have hmv := congrArg Prod.fst (Option.some.inj h) |> Except.ok.inj
            intro v hv
            rw [← hmv] at hv
            obtain ⟨r, hr, hrv⟩ := List.mem_map.mp hv
            rw [← hrv]
            rfl

theorem resolveMeasure_label_empty (t : Table) (cfg : Config)
    (em : Except PErr (List Value)) (lbl : String)
    (hlbl : cfg.chart_label = some "")
    (h : resolveMeasure t cfg = some (em, lbl)) : lbl = "" := by
  cases hcol : cfg.columns with
  | none => rw [resolveMeasure, hcol] at h; exact absurd h (by simp)
  | some spec =>
    cases spec with
    | one c =>
        rw [resolveMeasure, hcol] at h
        by_cases hmem : c ∈ t.header
        · simp only [hmem, if_true] at h
          have := congrArg Prod.snd (Option.some.inj h)
          rw [hlbl] at this
          exact this.symm.trans rfl
        · simp only [hmem, if_false] at h
          exact absurd h (by simp)
    | many cs =>
        rw [resolveMeasure, hcol] at h
        cases hem : (cs.filter (fun c => decide (c ∈ t.header))).isEmpty with
        | true =>
            simp only [hem, if_true] at h
            exact absurd h (by simp)
        | false =>
            simp only [hem, Bool.false_eq_true, if_false] at h
            have := congrArg Prod.snd (Option.some.inj h)
            rw [hlbl] at this
            exact this.symm.trans rfl

theorem aggregate_ok (t : Table) (mvals : List Value) (g : String)
    (h : ∀ v ∈ mvals, v.isNum = true) : ∃ out, aggregate t mvals g = .ok out := by
  simp only [aggregate]
  apply mapM_isOk
  intro k _
  have hsub : ∀ v ∈ (((t.rows.map (fun r => getVal r g)).zip mvals).filter
      (fun p => decide (p.1 = k))).map Prod.snd, v.isNum = true := by
    intro v hv
    obtain ⟨p, hp, hpv⟩ := List.mem_map.mp hv
    obtain ⟨a, b⟩ := p
    have hzip := (List.mem_filter.mp hp).1
    have hb := (List.of_mem_zip hzip).2
    rw [← hpv]
    exact h b hb
  exact ⟨(k, .num _), by rw [sumSeries_allNum _ hsub]; rfl⟩

end FinViz

namespace FinViz

theorem generate_chart_yLabel (series : List (Value × Value))
    (xCol kind outDir base lbl : String) (saveOk : String → Bool) :
    (generate_chart series xCol kind outDir base lbl saveOk).yLabel = lbl := by
  unfold generate_chart
  dsimp only
  split
  · split
    · split <;> rfl
    · rfl
  · rfl

theorem generate_chart_written (series : List (Value × Value))
    (xCol kind outDir base lbl : String) (saveOk : String → Bool) (p : String)
    (h : (generate_chart series xCol kind outDir base lbl saveOk).written = some p) :
    p = chartPath outDir base xCol kind := by
  unfold generate_chart at h
  dsimp only at h
  split at h
  · split at h
    · split at h
      · exact (Option.some.inj h).symm
      · exact absurd h (by simp)
    · exact absurd h (by simp)
  · exact absurd h (by simp)

theorem generate_chart_unsupported (series : List (Value × Value))
    (xCol kind outDir base lbl : String) (saveOk : String → Bool)
    (h1 : kind ≠ "line") (h2 : kind ≠ "bar") :
    generate_chart series xCol kind outDir base lbl saveOk =
      { written := none, figClosed := true, err := none, texts := [], yLabel := lbl } := by
  unfold generate_chart
  dsimp only
  rw [if_neg]
  intro hor
  exact hor.elim h1 h2

theorem processGroups_nil (t : Table) (mvals : List Value)
    (kind d b lbl : String) (sOk : String → Bool) :
    processGroups t mvals kind d b lbl sOk [] = ([], none) := rfl

theorem processGroups_cons_missing (t : Table) (mvals : List Value)
    (kind d b lbl : String) (sOk : String → Bool) (g : String) (gs : List String)
    (hmem : g ∉ t.header) :
    processGroups t mvals kind d b lbl sOk (g :: gs) =
      (GroupStep.skippedMissing g :: (processGroups t mvals kind d b lbl sOk gs).1,
       (processGroups t mvals kind d b lbl sOk gs).2) := by
  rw [processGroups, if_neg hmem]

theorem processGroups_cons_aggFail (t : Table) (mvals : List Value)
    (kind d b lbl : String) (sOk : String → Bool) (g : String) (gs : List String)
    (e : PErr) (hmem : g ∈ t.header) (hagg : aggregate t mvals g = .error e) :
    processGroups t mvals kind d b lbl sOk (g :: gs) =
      ([GroupStep.aggFailed g e], some e) := by
  rw [processGroups, if_pos hmem, hagg]

theorem processGroups_cons_renderErr (t : Table) (mvals : List Value)
    (kind d b lbl : String) (sOk : String → Bool) (g : String) (gs : List String)
    (series : List (Value × Value)) (e : PErr)
    (hmem : g ∈ t.header) (hagg : aggregate t mvals g = .ok series)
    (herr : (generate_chart series g kind d b lbl sOk).err = some e) :
    processGroups t mvals kind d b lbl sOk (g :: gs) =
      ([GroupStep.rendered g (generate_chart series g kind d b lbl sOk)], some e) := by
  rw [processGroups, if_pos hmem, hagg]
  dsimp only
  rw [herr]

theorem processGroups_cons_ok (t : Table) (mvals : List Value)
    (kind d b lbl : String) (sOk : String → Bool) (g : String) (gs : List String)
    (series : List (Value × Value))
    (hmem : g ∈ t.header) (hagg : aggregate t mvals g = .ok series)
    (herr : (generate_chart series g kind d b lbl sOk).err = none) :
    processGroups t mvals kind d b lbl sOk (g :: gs) =
      (GroupStep.rendered g (generate_chart series g kind d b lbl sOk) ::
         (processGroups t mvals kind d b lbl sOk gs).1,
       (processGroups t mvals kind d b lbl sOk gs).2) := by
  rw [processGroups, if_pos hmem, hagg]
  dsimp only
  rw [herr]

end FinViz

namespace FinViz

theorem processGroups_cols_initial (t : Table) (mvals : List Value)
    (kind d b lbl : String) (sOk : String → Bool) : ∀ gs : List String,
    ∃ rest, gs = ((processGroups t mvals kind d b lbl sOk gs).1.map stepCol) ++ rest := by
  intro gs
  induction gs with
  | nil => exact ⟨[], rfl⟩
  | cons g gt ih =>
      by_cases hmem : g ∈ t.header
      · cases hagg : aggregate t mvals g with
        | error e =>
            rw [processGroups_cons_aggFail t mvals kind d b lbl sOk g gt e hmem hagg]
            exact ⟨gt, by simp [stepCol]⟩
        | ok series =>
            cases herr : (generate_chart series g kind d b lbl sOk).err with
            | some e =>
                rw [processGroups_cons_renderErr t mvals kind d b lbl sOk g gt series e
                  hmem hagg herr]
                exact ⟨gt, by simp [stepCol]⟩
            | none =>
                rw [processGroups_cons_ok t mvals kind d b lbl sOk g gt series
                  hmem hagg herr]
                obtain ⟨rest, hrest⟩ := ih
                refine ⟨rest, ?_⟩
                simp only [List.map_cons, stepCol, List.cons_append]
                exact congrArg (g :: ·) hrest
      · rw [processGroups_cons_missing t mvals kind d b lbl sOk g gt hmem]
        obtain ⟨rest, hrest⟩ := ih
        refine ⟨rest, ?_⟩
        simp only [List.map_cons, stepCol, List.cons_append]
        exact congrArg (g :: ·) hrest

theorem processGroups_none_full (t : Table) (mvals : List Value)
    (kind d b lbl : String) (sOk : String → Bool) : ∀ gs : List String,
    (processGroups t mvals kind d b lbl sOk gs).2 = none →
    (processGroups t mvals kind d b lbl sOk gs).1.map stepCol = gs := by
  intro gs
  induction gs with
  | nil => intro _; rfl
  | cons g gt ih =>
      intro hnone
      by_cases hmem : g ∈ t.header
      · cases hagg : aggregate t mvals g with
        | error e =>
            rw [processGroups_cons_aggFail t mvals kind d b lbl sOk g gt e hmem hagg] at hnone
            exact absurd hnone (by simp)
        | ok series =>
            cases herr : (generate_chart series g kind d b lbl sOk).err with
            | some e =>
                rw [processGroups_cons_renderErr t mvals kind d b lbl sOk g gt series e
                  hmem hagg herr] at hnone
                exact absurd hnone (by simp)
            | none =>
                rw [processGroups_cons_ok t mvals kind d b lbl sOk g gt series
                  hmem hagg herr] at hnone ⊢
                simp only [List.map_cons, stepCol]
                rw [ih hnone]
      · rw [processGroups_cons_missing t mvals kind d b lbl sOk g gt hmem] at hnone ⊢
        simp only [List.map_cons, stepCol]
        rw [ih hnone]

theorem processGroups_rendered_yLabel (t : Table) (mvals : List Value)
    (kind d b lbl : String) (sOk : String → Bool) : ∀ (gs : List String)
    (g : String) (r : RenderOutcome),
    GroupStep.rendered g r ∈ (processGroups t mvals kind d b lbl sOk gs).1 →
    r.yLabel = lbl := by
  intro gs
  induction gs with
  | nil => intro g r h; exact absurd h (by simp [processGroups_nil])
  | cons g0 gt ih =>
      intro g r h
      by_cases hmem : g0 ∈ t.header
      · cases hagg : aggregate t mvals g0 with
        | error e =>
            rw [processGroups_cons_aggFail t mvals kind d b lbl sOk g0 gt e hmem hagg] at h
            simp at h
        | ok series =>
            cases herr : (generate_chart series g0 kind d b lbl sOk).err with
            | some e =>
                rw [processGroups_cons_renderErr t mvals kind d b lbl sOk g0 gt series e
                  hmem hagg herr] at h
                simp only [List.mem_singleton] at h
                rw [(GroupStep.rendered.inj h).2]
                exact generate_chart_yLabel _ _ _ _ _ _ _
            | none =>
                rw [processGroups_cons_ok t mvals kind d b lbl sOk g0 gt series
                  hmem hagg herr] at h
                rcases List.mem_cons.mp h with hh | ht
                · rw [(GroupStep.rendered.inj hh).2]
                  exact generate_chart_yLabel _ _ _ _ _ _ _
                · exact ih g r ht
      · rw [processGroups_cons_missing t mvals kind d b lbl sOk g0 gt hmem] at h
        rcases List.mem_cons.mp h with hh | ht
        · exact absurd hh (by simp)
        · exact ih g r ht

theorem processGroups_artifact_path (t : Table) (mvals : List Value)
    (kind d b lbl : String) (sOk : String → Bool) : ∀ (gs : List String) (p : String),
    p ∈ ((processGroups t mvals kind d b lbl sOk gs).1.filterMap stepArtifact) →
    ∃ g, g ∈ gs ∧ p = chartPath d b g kind := by
  intro gs
  induction gs with
  | nil => intro p h; exact absurd h (by simp [processGroups_nil])
  | cons g0 gt ih =>
      intro p h
      by_cases hmem : g0 ∈ t.header
      · cases hagg : aggregate t mvals g0 with
        | error e =>
            rw [processGroups_cons_aggFail t mvals kind d b lbl sOk g0 gt e hmem hagg] at h
            simp [stepArtifact] at h
        | ok series =>
            cases herr : (generate_chart series g0 kind d b lbl sOk).err with
            | some e =>
                rw [processGroups_cons_renderErr t mvals kind d b lbl sOk g0 gt series e
                  hmem hagg herr] at h
                simp only [List.filterMap_cons, stepArtifact] at h
                cases hw : (generate_chart series g0 kind d b lbl sOk).written with
                | none => rw [hw] at h; simp at h
                | some p2 =>
                    rw [hw] at h
                    simp only [List.filterMap_nil, List.mem_singleton] at h
                    refine ⟨g0, List.mem_cons_self _ _, ?_⟩
                    rw [h]
                    exact generate_chart_written _ _ _ _ _ _ _ _ hw
            | none =>
                rw [processGroups_cons_ok t mvals kind d b lbl sOk g0 gt series
                  hmem hagg herr] at h
                simp only [List.filterMap_cons, stepArtifact] at h
                cases hw : (generate_chart series g0 kind d b lbl sOk).written with
                | none =>
                    rw [hw] at h
                    obtain ⟨g2, hg2, hp2⟩ := ih p h
                    exact ⟨g2, List.mem_cons_of_mem _ hg2, hp2⟩
                | some p2 =>
                    rw [hw] at h
                    rcases List.mem_cons.mp h with hh | ht
                    · refine ⟨g0, List.mem_cons_self _ _, ?_⟩
                      rw [hh]
                      exact generate_chart_written _ _ _ _ _ _ _ _ hw
                    · obtain ⟨g2, hg2, hp2⟩ := ih p ht
                      exact ⟨g2, List.mem_cons_of_mem _ hg2, hp2⟩
      · rw [processGroups_cons_missing t mvals kind d b lbl sOk g0 gt hmem] at h
        simp only [List.filterMap_cons, stepArtifact] at h
        obtain ⟨g2, hg2, hp2⟩ := ih p h
        exact ⟨g2, List.mem_cons_of_mem _ hg2, hp2⟩

theorem processGroups_unsupported (t : Table) (mvals : List Value)
    (kind d b lbl : String) (sOk : String → Bool)
    (h1 : kind ≠ "line") (h2 : kind ≠ "bar")
    (hmv : ∀ v ∈ mvals, v.isNum = true) : ∀ gs : List String,
    (processGroups t mvals kind d b lbl sOk gs).2 = none ∧
    (processGroups t mvals kind d b lbl sOk gs).1.map stepCol = gs ∧
    (processGroups t mvals kind d b lbl sOk gs).1.filterMap stepArtifact = [] := by
  intro gs
  induction gs with
  | nil => exact ⟨rfl, rfl, rfl⟩
  | cons g gt ih =>
      by_cases hmem : g ∈ t.header
      · obtain ⟨out, hout⟩ := aggregate_ok t mvals g hmv
        have herr : (generate_chart out g kind d b lbl sOk).err = none := by
          rw [generate_chart_unsupported out g kind d b lbl sOk h1 h2]
        rw [processGroups_cons_ok t mvals kind d b lbl sOk g gt out hmem hout herr]
        have hw : (generate_chart out g kind d b lbl sOk).written = none := by
          rw [generate_chart_unsupported out g kind d b lbl sOk h1 h2]
        simp only [List.map_cons, stepCol, List.filterMap_cons, stepArtifact, hw]
        exact ⟨ih.1, by rw [ih.2.1], ih.2.2⟩
      · rw [processGroups_cons_missing t mvals kind d b lbl sOk g gt hmem]
        simp only [List.map_cons, stepCol, List.filterMap_cons, stepArtifact]
        exact ⟨ih.1, by rw [ih.2.1], ih.2.2⟩

end FinViz

namespace FinViz

theorem process_single_file_noParse (f : SrcFile) (cfg : Config) (saveOk : String → Bool)
    (hp : f.parsed = none) :
    process_single_file f cfg saveOk = { steps := [], escErr := none } := by
  unfold process_single_file
  rw [hp]

theorem process_single_file_badKeys (f : SrcFile) (cfg : Config) (saveOk : String → Bool)
    (t : Table) (hp : f.parsed = some t) (hok : configKeysOk cfg = false) :
    process_single_file f cfg saveOk = { steps := [], escErr := none } := by
  unfold process_single_file
  rw [hp]
  dsimp only
  rw [hok]
  rfl

theorem process_single_file_noMeasure (f : SrcFile) (cfg : Config) (saveOk : String → Bool)
    (t : Table) (hp : f.parsed = some t) (habs : resolveMeasure t cfg = none) :
    process_single_file f cfg saveOk = { steps := [], escErr := none } := by
  unfold process_single_file
  rw [hp]
  dsimp only
  cases hok : configKeysOk cfg with
  | false => rfl
  | true => rw [if_pos rfl, habs]

theorem process_single_file_synthFail (f : SrcFile) (cfg : Config) (saveOk : String → Bool)
    (t : Table) (e : PErr) (lbl : String) (hp : f.parsed = some t)
    (hok : configKeysOk cfg = true)
    (hm : resolveMeasure t cfg = some (.error e, lbl)) :
    process_single_file f cfg saveOk = { steps := [], escErr := some e } := by
  unfold process_single_file
  rw [hp]
  dsimp only
  rw [hok, if_pos rfl, hm]

theorem process_single_file_eq_groups (f : SrcFile) (cfg : Config) (saveOk : String → Bool)
    (t : Table) (mvals : List Value) (lbl : String) (hp : f.parsed = some t)
    (hok : configKeysOk cfg = true)
    (hm : resolveMeasure t cfg = some (.ok mvals, lbl)) :
    process_single_file f cfg saveOk =
      { steps := (processGroups t mvals (cfg.chart_type.getD "") f.dir f.stem lbl
          saveOk (groupListOf cfg)).1,
        escErr := (processGroups t mvals (cfg.chart_type.getD "") f.dir f.stem lbl
          saveOk (groupListOf cfg)).2 } := by
  unfold process_single_file
  rw [hp]
  dsimp only
  rw [hok, if_pos rfl, hm]

end FinViz

namespace FinViz

theorem labelTexts_num (ys : List Value) (h : ∀ v ∈ ys, v.isNum = true) :
    labelTexts ys = ys.map (fun v => toString (truncQ v.q)) := by
  induction ys with
  | nil => rfl
  | cons v vs ih =>
      have hv := h v (List.mem_cons_self v vs)
      cases v with
      | str s => simp [Value.isNum] at hv
      | num q =>
          show toString (truncQ q) :: labelTexts vs = _
          rw [ih (fun w hw => h w (List.mem_cons_of_mem _ hw))]
          rfl

theorem generate_chart_texts (series : List (Value × Value))
    (xCol kind outDir base lbl : String) (saveOk : String → Bool)
    (hk : kind = "line" ∨ kind = "bar") :
    (generate_chart series xCol kind outDir base lbl saveOk).texts =
      labelTexts (series.map Prod.snd) := by
  unfold generate_chart
  dsimp only
  rw [if_pos hk]
  split
  · split <;> rfl
  · rfl

/-! ## Claim theorems -/

/-- C2: for every table whose group column and measure column are numeric,
aggregation produces exactly one `(groupKey, sumValue)` pair per distinct
group value, with `sumValue` the sum of the measure over the rows carrying
that group value, and the numeric group keys sorted ascending; on the
Year/Amount example table this yields `[(2023, 300), (2024, 400)]` and the
pipeline writes the artifact `d/fin_Year_bar.png`. -/
theorem C2_aggregation_sorted_sums (t : Table) (mvals : List Value) (g : String)
    (ks ms : List ℚ)
    (hg : t.rows.map (fun r => getVal r g) = ks.map Value.num)
    (hm : mvals = ms.map Value.num)
    (hl : ms.length = ks.length) :
    (∃ qs : List ℚ, qs.Nodup ∧ List.Sorted (fun a b : ℚ => a ≤ b) qs ∧
      (∀ q : ℚ, q ∈ qs ↔ q ∈ ks) ∧
      aggregate t mvals g = .ok (qs.map (fun q => (Value.num q,
        Value.num ((((ks.zip ms).filter
          (fun pr => decide (pr.1 = q))).map Prod.snd).sum))))) ∧
    aggregate tYear (tYear.rows.map (fun r => getVal r "Amount")) "Year" =
      .ok [(.num 2023, .num 300), (.num 2024, .num 400)] ∧
    (process_single_file fYear cfgYear saveAll).artifacts = ["d/fin_Year_bar.png"] := by
  refine ⟨aggregate_num_spec t mvals g ks ms hg hm hl, ?_, ?_⟩
  · decide
  · decide

/-- Witness for C2 at the Year/Amount example table. -/
theorem C2_witness :
    ∃ qs : List ℚ, qs.Nodup ∧ List.Sorted (fun a b : ℚ => a ≤ b) qs ∧
      (∀ q : ℚ, q ∈ qs ↔ q ∈ [(2023 : ℚ), 2023, 2024, 2024]) ∧
      aggregate tYear (tYear.rows.map (fun r => getVal r "Amount")) "Year" =
        .ok (qs.map (fun q => (Value.num q,
          Value.num (((([(2023 : ℚ), 2023, 2024, 2024].zip
            [(100 : ℚ), 200, 150, 250]).filter
            (fun pr => decide (pr.1 = q))).map Prod.snd).sum)))) :=
  (C2_aggregation_sorted_sums tYear (tYear.rows.map (fun r => getVal r "Amount")) "Year"
    [2023, 2023, 2024, 2024] [100, 200, 150, 250]
    (by decide) (by decide) (by decide)).1

/-- C3: when `measure` is a sequence of names and at least one is a present
column of a numeric table, the synthetic measure column is the row-wise sum
over exactly the present subset (absent names are ignored without error),
and with no `chart_label` the display label is the present names joined
with " + " in their original order. -/
theorem C3_multi_measure_rowwise_sum (t : Table) (cs : List String) (cfg : Config)
    (hc : cfg.columns = some (.many cs))
    (hlbl : cfg.chart_label = none)
    (hnum : numericTableB t = true)
    (hav : (cs.filter (fun c => decide (c ∈ t.header))).isEmpty = false) :
    resolveMeasure t cfg = some (.ok (t.rows.map (fun r =>
        Value.num (((cs.filter (fun c => decide (c ∈ t.header))).map
          (fun c => (getVal r c).q)).sum))),
      String.intercalate " + " (cs.filter (fun c => decide (c ∈ t.header)))) := by
  rw [resolveMeasure_many t cs cfg hc hnum hav, hlbl]
  rfl

/-- Witness for C3 at the Salary/Bonus example table: the synthetic
measure is `[55000, 58000]` and the label `"Salary + Bonus"`. -/
theorem C3_witness :
    resolveMeasure tSB cfgSB =
      some (.ok [.num 55000, .num 58000], "Salary + Bonus") :=
  (C3_multi_measure_rowwise_sum tSB ["Salary", "Bonus"] cfgSB rfl rfl
    (by decide) (by decide)).trans (by decide)

/-- C4 countered: after a prior successful load, a raising `load_config`
leaves the previously loaded configuration in place — `config_data` is not
empty afterwards. -/
theorem C4_counterexample :
    (load_config [cfgYear] ConfigSource.missing).1 = .error .notFound ∧
    (load_config [cfgYear] ConfigSource.missing).2 ≠ [] := by decide

/-- C4 amended: every raising `load_config` call leaves `config_data`
exactly as it was before the call (hence empty only when the pipeline was
still Uninitialized). -/
theorem C4_raise_preserves_config (st : List Config) (src : ConfigSource) (e : LoadErr)
    (h : (load_config st src).1 = .error e) : (load_config st src).2 = st := by
  cases src with
  | missing => rfl
  | badJson => rfl
  | parsed j =>
      cases j with
      | other => rfl
      | obj c => exact absurd h (by simp [load_config])
      | arr xs =>
          cases xs with
          | nil => rfl
          | cons c cs => exact absurd h (by simp [load_config])

/-- Witness for C4 amended: a raising load on the initial state keeps
`config_data` empty. -/
theorem C4_witness : (load_config [] ConfigSource.missing).2 = [] :=
  C4_raise_preserves_config [] ConfigSource.missing LoadErr.notFound rfl

/-- C8: the figure is NOT closed when a data-label conversion raises during
plotting (the `finally` only guards the save): rendering the series
`[(2023, "abc")]` as a line chart leaves the figure open and writes
nothing, while a failed save and an unsupported kind do close it. -/
theorem C8_figure_leak :
    ((generate_chart [(.num 2023, .str "abc")] "Year" "line" "d" "b" "lbl"
        saveAll).figClosed = false ∧
     (generate_chart [(.num 2023, .str "abc")] "Year" "line" "d" "b" "lbl"
        saveAll).written = none) ∧
    (generate_chart [(.num 2023, .num 1)] "Year" "line" "d" "b" "lbl"
      (fun _ => false)).figClosed = true ∧
    (generate_chart [(.num 2023, .num 1)] "Year" "pie" "d" "b" "lbl"
      saveAll).figClosed = true := by
  decide

/-- C9 countered: the data label is Python `int(y)`, truncation toward
zero, not rounding to nearest: for the sum value 3.7 the label reads "3"
although the nearest integer is 4. -/
theorem C9_counterexample :
    (generate_chart [(.num 1, .num (37/10))] "G" "bar" "d" "b" "l" saveAll).texts =
      ["3"] ∧ round ((37 : ℚ)/10) = 4 := by
  decide

/-- C9 amended: for a bar or line chart over numeric sum values, each data
label is the sum value truncated toward zero (Python `int`). -/
theorem C9_labels_truncate (series : List (Value × Value))
    (xCol kind outDir base lbl : String) (saveOk : String → Bool)
    (hk : kind = "line" ∨ kind = "bar")
    (hnumv : ∀ pr ∈ series, (Prod.snd pr).isNum = true) :
    (generate_chart series xCol kind outDir base lbl saveOk).texts =
      series.map (fun pr => toString (truncQ (Value.q pr.2))) := by
  have hys : ∀ v ∈ series.map Prod.snd, v.isNum = true := by
    intro v hv
    obtain ⟨pr, hpr, he⟩ := List.mem_map.mp hv
    rw [← he]
    exact hnumv pr hpr
  rw [generate_chart_texts series xCol kind outDir base lbl saveOk hk,
    labelTexts_num (series.map Prod.snd) hys, List.map_map]
  rfl

/-- Witness for C9 amended at a concrete numeric series. -/
theorem C9_witness :
    (generate_chart [(.num 1, .num 2)] "G" "bar" "d" "b" "l" saveAll).texts =
      [(.num 1, .num 2)].map (fun pr : Value × Value =>
        toString (truncQ (Value.q pr.2))) :=
  C9_labels_truncate [(.num 1, .num 2)] "G" "bar" "d" "b" "l" saveAll
    (Or.inr rfl) (by decide)

end FinViz

namespace FinViz

/-- C1 countered: a data-label conversion error raised while rendering the
first group column (`G1`) of `fC1` escapes `_process_single_file` — it is
not caught at the group column's scope — and the second group column `G2`,
although present in both the table and the descriptor's groupBy list, is
neither aggregated nor rendered. -/
theorem C1_counterexample :
    (process_single_file fC1 cfgC1 saveAll).escErr = some .intConvError ∧
    (process_single_file fC1 cfgC1 saveAll).steps.map stepCol = ["G1"] ∧
    "G2" ∈ groupListOf cfgC1 ∧ "G2" ∈ tC1.header ∧
    (process_single_file fC1 cfgC1 saveAll).artifacts = [] := by
  decide

/-- C1 amended: an exception raised while aggregating or rendering a group
column propagates out of `_process_single_file` and is caught by the
per-file handler of `_process_config_entry`: the attempted group columns
are always an initial segment of the descriptor's group list, the whole
list exactly when no exception escapes, and every file of the batch is
processed independently of the others' failures. -/
theorem C1_per_file_isolation (files : List SrcFile) (cfg : Config)
    (saveOk : String → Bool) (f : SrcFile) (t : Table) (mvals : List Value)
    (lbl : String) (hp : f.parsed = some t) (hok : configKeysOk cfg = true)
    (hm : resolveMeasure t cfg = some (.ok mvals, lbl)) :
    (∃ rest, groupListOf cfg =
      ((process_single_file f cfg saveOk).steps.map stepCol) ++ rest) ∧
    ((process_single_file f cfg saveOk).escErr = none →
      (process_single_file f cfg saveOk).steps.map stepCol = groupListOf cfg) ∧
    process_config_entry files cfg saveOk =
      files.map (fun fl => process_single_file fl cfg saveOk) := by
  have heq := process_single_file_eq_groups f cfg saveOk t mvals lbl hp hok hm
  refine ⟨?_, ?_, rfl⟩
  · rw [heq]
    exact processGroups_cols_initial t mvals (cfg.chart_type.getD "") f.dir f.stem lbl
      saveOk (groupListOf cfg)
  · rw [heq]
    exact processGroups_none_full t mvals (cfg.chart_type.getD "") f.dir f.stem lbl
      saveOk (groupListOf cfg)

/-- Witness for C1 amended at the `fC1` file (where an exception does
escape after `G1`). -/
theorem C1_witness :
    (∃ rest, groupListOf cfgC1 =
      ((process_single_file fC1 cfgC1 saveAll).steps.map stepCol) ++ rest) ∧
    ((process_single_file fC1 cfgC1 saveAll).escErr = none →
      (process_single_file fC1 cfgC1 saveAll).steps.map stepCol = groupListOf cfgC1) ∧
    process_config_entry [fC1] cfgC1 saveAll =
      [fC1].map (fun fl => process_single_file fl cfgC1 saveAll) :=
  C1_per_file_isolation [fC1] cfgC1 saveAll fC1 tC1
    [Value.str "a", Value.str "b"] "M" rfl (by decide) (by decide)

/-- C5: a chartKind outside bar/line yields no artifact from the render
call and raises nothing past it, and for a numeric table every group
column of the file is still visited (the whole file yields no artifacts
but also no escaping exception). -/
theorem C5_unsupported_kind (series : List (Value × Value))
    (xCol kind outDir base lbl : String) (saveOk : String → Bool)
    (f : SrcFile) (cfg : Config) (t : Table) (mvals : List Value) (lbl2 : String)
    (hk1 : kind ≠ "line") (hk2 : kind ≠ "bar")
    (hp : f.parsed = some t) (hok : configKeysOk cfg = true)
    (hm : resolveMeasure t cfg = some (.ok mvals, lbl2))
    (hnum : numericTableB t = true)
    (hkind : cfg.chart_type = some kind) :
    (generate_chart series xCol kind outDir base lbl saveOk).written = none ∧
    (generate_chart series xCol kind outDir base lbl saveOk).err = none ∧
    (process_single_file f cfg saveOk).escErr = none ∧
    (process_single_file f cfg saveOk).steps.map stepCol = groupListOf cfg ∧
    (process_single_file f cfg saveOk).artifacts = [] := by
  have hgc := generate_chart_unsupported series xCol kind outDir base lbl saveOk hk1 hk2
  have hmv := resolveMeasure_allNum t cfg mvals lbl2 hnum hm
  have heq := process_single_file_eq_groups f cfg saveOk t mvals lbl2 hp hok hm
  have hkd : cfg.chart_type.getD "" = kind := by rw [hkind]; rfl
  have hu := processGroups_unsupported t mvals (cfg.chart_type.getD "") f.dir f.stem
    lbl2 saveOk (by rw [hkd]; exact hk1) (by rw [hkd]; exact hk2) hmv (groupListOf cfg)
  refine ⟨by rw [hgc], by rw [hgc], ?_, ?_, ?_⟩
  · rw [heq]
    exact hu.1
  · rw [heq]
    exact hu.2.1
  · rw [heq]
    show List.filterMap stepArtifact _ = []
    exact hu.2.2

/-- Witness for C5 at the Salary table rendered with kind "pie". -/
theorem C5_witness :
    (generate_chart [] "x" "pie" "o" "b" "l" saveAll).written = none ∧
    (generate_chart [] "x" "pie" "o" "b" "l" saveAll).err = none ∧
    (process_single_file fSB cfgPie saveAll).escErr = none ∧
    (process_single_file fSB cfgPie saveAll).steps.map stepCol = groupListOf cfgPie ∧
    (process_single_file fSB cfgPie saveAll).artifacts = [] :=
  C5_unsupported_kind [] "x" "pie" "o" "b" "l" saveAll fSB cfgPie tSB
    [Value.num 50000, Value.num 52000] "Salary"
    (by decide) (by decide) rfl (by decide) (by decide) (by decide) rfl

/-- C6: a parsed file none of whose measure columns are present is skipped
— its outcome has no steps, no artifacts, and no escaping exception — and
every other file of the batch is still processed exactly as it would be
alone. -/
theorem C6_missing_measure_skips_file (files : List SrcFile) (cfg : Config)
    (saveOk : String → Bool) (i : Nat) (f : SrcFile) (t : Table)
    (hf : files[i]? = some f) (hp : f.parsed = some t)
    (habs : resolveMeasure t cfg = none) :
    (process_config_entry files cfg saveOk)[i]? =
      some { steps := [], escErr := none } ∧
    FileOutcome.artifacts { steps := [], escErr := none } = [] ∧
    ∀ j : Nat, (process_config_entry files cfg saveOk)[j]? =
      (files[j]?).map (fun fl => process_single_file fl cfg saveOk) := by
  have hskip := process_single_file_noMeasure f cfg saveOk t hp habs
  refine ⟨?_, rfl, ?_⟩
  · rw [process_config_entry, List.getElem?_map, hf]
    exact congrArg some hskip
  · intro j
    rw [process_config_entry, List.getElem?_map]

/-- Witness for C6: the first file lacks the `Amount` column and is
skipped; the second file is still processed. -/
theorem C6_witness :
    (process_config_entry [fNoAmt, fYear] cfgYear saveAll)[0]? =
      some { steps := [], escErr := none } ∧
    FileOutcome.artifacts { steps := [], escErr := none } = [] ∧
    ∀ j : Nat, (process_config_entry [fNoAmt, fYear] cfgYear saveAll)[j]? =
      ([fNoAmt, fYear][j]?).map (fun fl => process_single_file fl cfgYear saveAll) :=
  C6_missing_measure_skips_file [fNoAmt, fYear] cfgYear saveAll 0 fNoAmt tNoAmt
    rfl rfl (by decide)

/-- C7: every artifact path a file's processing writes is
`{dir}/{stem}_{groupColumn}_{chartKind}.png` for some group column of the
descriptor — a deterministic function of the source file's directory and
stem, the group column, and the chart kind only. -/
theorem C7_artifact_path_formula (f : SrcFile) (cfg : Config)
    (saveOk : String → Bool) (t : Table) (mvals : List Value) (lbl : String)
    (p : String) (hp : f.parsed = some t) (hok : configKeysOk cfg = true)
    (hm : resolveMeasure t cfg = some (.ok mvals, lbl))
    (hmem : p ∈ (process_single_file f cfg saveOk).artifacts) :
    ∃ g, g ∈ groupListOf cfg ∧
      p = chartPath f.dir f.stem g (cfg.chart_type.getD "") ∧
      chartPath f.dir f.stem g (cfg.chart_type.getD "") =
        f.dir ++ "/" ++ f.stem ++ "_" ++ g ++ "_" ++ (cfg.chart_type.getD "") ++ ".png" := by
  rw [process_single_file_eq_groups f cfg saveOk t mvals lbl hp hok hm] at hmem
  obtain ⟨g, hg, hpath⟩ := processGroups_artifact_path t mvals (cfg.chart_type.getD "")
    f.dir f.stem lbl saveOk (groupListOf cfg) p hmem
  exact ⟨g, hg, hpath, rfl⟩

/-- Witness for C7 at the Year/Amount pipeline run. -/
theorem C7_witness :
    ∃ g, g ∈ groupListOf cfgYear ∧
      "d/fin_Year_bar.png" = chartPath fYear.dir fYear.stem g (cfgYear.chart_type.getD "") ∧
      chartPath fYear.dir fYear.stem g (cfgYear.chart_type.getD "") =
        fYear.dir ++ "/" ++ fYear.stem ++ "_" ++ g ++ "_" ++
          (cfgYear.chart_type.getD "") ++ ".png" :=
  C7_artifact_path_formula fYear cfgYear saveAll tYear
    (tYear.rows.map (fun r => getVal r "Amount")) "Amount" "d/fin_Year_bar.png"
    rfl (by decide) (by decide) (by decide)

/-- C10: when the chart-label key is present but bound to the empty
string, every rendered chart of the file carries the empty string as its
y-axis/legend label — the fallback to the measure name never applies. -/
theorem C10_empty_chart_label (f : SrcFile) (cfg : Config) (saveOk : String → Bool)
    (t : Table) (g : String) (r : RenderOutcome)
    (hp : f.parsed = some t)
    (hlbl : cfg.chart_label = some "")
    (hstep : GroupStep.rendered g r ∈ (process_single_file f cfg saveOk).steps) :
    r.yLabel = "" := by
  cases hok : configKeysOk cfg with
  | false =>
      rw [process_single_file_badKeys f cfg saveOk t hp hok] at hstep
      exact absurd hstep (by simp)
  | true =>
      cases hm : resolveMeasure t cfg with
      | none =>
          rw [process_single_file_noMeasure f cfg saveOk t hp hm] at hstep
          exact absurd hstep (by simp)
      | some pr =>
          obtain ⟨em, lbl⟩ := pr
          cases em with
          | error e =>
              rw [process_single_file_synthFail f cfg saveOk t e lbl hp hok hm] at hstep
              exact absurd hstep (by simp)
          | ok mvals =>
              rw [process_single_file_eq_groups f cfg saveOk t mvals lbl hp hok hm]
                at hstep
              have hlbl2 := resolveMeasure_label_empty t cfg (.ok mvals) lbl hlbl hm
              rw [← hlbl2]
              exact processGroups_rendered_yLabel t mvals (cfg.chart_type.getD "")
                f.dir f.stem lbl saveOk (groupListOf cfg) g r hstep

/-- Witness for C10 at the Year/Amount table with `chart_label` set to the
empty string. -/
theorem C10_witness :
    RenderOutcome.yLabel
      { written := some "d/fin_Year_bar.png", figClosed := true, err := none,
        texts := ["300", "400"], yLabel := "" } = "" :=
  C10_empty_chart_label fYear cfgC10 saveAll tYear "Year"
    { written := some "d/fin_Year_bar.png", figClosed := true, err := none,
      texts := ["300", "400"], yLabel := "" }
    rfl rfl (by decide)

end FinViz
